import Mathlib

/-!
Verification of the ask-reddit scraper core: the circuit breaker, the
batch-span bucketing model, the elapsed-time utility and the scrape
orchestrator.  The repository ships only the exploratory notebook
(`src/notebooks/lab.ipynb`, which imports `scraper.constants.BatchSpan`,
`scraper.date.DateTime` and `scraper.monitor.CircuitBreaker` and records
their observed behaviour) together with the README; the `scraper` package
itself is not in the tree, so each component below is modelled from the
specification and cross-checked against the notebook's recorded traces.
-/

namespace AskReddit

/-- Modelled from the spec: `scraper.date.DateTime.get_minutes` is not in the
tree (only the notebook call trace is).  Section 4.3 describes the
ElapsedTime utility as a pure conversion of a duration into minutes with
sub-minute precision, so the duration (in seconds) is divided exactly by 60.
Note the notebook trace shows `get_minutes` returning exactly `442.0` on a
duration obtained from `datetime.now()`, which an exact division would
almost surely not produce. -/
def DateTime.get_minutes (td : ℚ) : ℚ := td / 60

/-- The three circuit-breaker states of spec section 3. -/
inductive CBState where
  | Closed
  | Open
  | HalfOpen
deriving DecidableEq

/-- Modelled from the spec: `scraper.monitor.CircuitBreaker` is not in the
tree.  State per spec section 3: the current state, the two consecutive
counters, the timestamp (seconds) of the transition into Open, both
thresholds (default 5) and the cooldown duration in minutes.  The
diagnostic-only `context` record is never inspected by the machine and is
not part of the state model. -/
structure CircuitBreaker where
  state : CBState
  consecutiveFailures : ℕ
  consecutiveSuccesses : ℕ
  openedAt : ℚ
  failureThreshold : ℕ
  successThreshold : ℕ
  cooldownDuration : ℚ
deriving DecidableEq

/-- A freshly constructed breaker: Closed, zero counters, default
thresholds of 5 failures / 5 successes. -/
def CircuitBreaker.new (cooldown : ℚ) : CircuitBreaker :=
  ⟨CBState.Closed, 0, 0, 0, 5, 5, cooldown⟩

/-- Modelled from the spec: `recordFailure` (named `failure` in the
notebook).  Increments `consecutiveFailures` and zeroes
`consecutiveSuccesses`; while Closed it opens the circuit once the failure
count exceeds the threshold, recording `openedAt`; while Open it first
checks whether the cooldown has elapsed and if so moves to Half-Open;
from Half-Open any failure re-opens the circuit and re-arms the cooldown. -/
def CircuitBreaker.failure (cb : CircuitBreaker) (now : ℚ) : CircuitBreaker :=
  let cb' := { cb with
    consecutiveFailures := cb.consecutiveFailures + 1
    consecutiveSuccesses := 0 }
  match cb'.state with
  | CBState.Closed =>
      if cb'.failureThreshold < cb'.consecutiveFailures then
        { cb' with state := CBState.Open, openedAt := now }
      else cb'
  | CBState.Open =>
      if cb'.cooldownDuration ≤ DateTime.get_minutes (now - cb'.openedAt) then
        { cb' with state := CBState.HalfOpen }
      else cb'
  | CBState.HalfOpen =>
      { cb' with state := CBState.Open, openedAt := now }

/-- Modelled from the spec: `recordSuccess` (named `success` in the
notebook).  Increments `consecutiveSuccesses` and zeroes
`consecutiveFailures`; while Half-Open, once the success count exceeds the
threshold the circuit closes and both counters reset to zero. -/
def CircuitBreaker.success (cb : CircuitBreaker) : CircuitBreaker :=
  let cb' := { cb with
    consecutiveSuccesses := cb.consecutiveSuccesses + 1
    consecutiveFailures := 0 }
  if cb'.state = CBState.HalfOpen ∧ cb'.successThreshold < cb'.consecutiveSuccesses then
    { cb' with state := CBState.Closed, consecutiveFailures := 0, consecutiveSuccesses := 0 }
  else cb'

/-- Modelled from the spec: call admission — true exactly when the breaker
is not Open (Half-Open permits trial calls). -/
def CircuitBreaker.isCallPermitted (cb : CircuitBreaker) : Bool :=
  cb.state != CBState.Open

/-- `n` consecutive failures recorded at time `now`. -/
def CircuitBreaker.failStreak (cb : CircuitBreaker) (now : ℚ) : ℕ → CircuitBreaker
  | 0 => cb
  | n + 1 => (cb.failStreak now n).failure now

/-- `n` consecutive successes. -/
def CircuitBreaker.succStreak (cb : CircuitBreaker) : ℕ → CircuitBreaker
  | 0 => cb
  | n + 1 => (cb.succStreak n).success

/-- One recorded event: a failure at a given timestamp, or a success. -/
inductive CBEvent where
  | fail (now : ℚ)
  | succeed
deriving DecidableEq

/-- Apply one event to the breaker. -/
def CircuitBreaker.apply (cb : CircuitBreaker) : CBEvent → CircuitBreaker
  | CBEvent.fail now => cb.failure now
  | CBEvent.succeed => cb.success

/-- Apply a finite sequence of failure/success events in order. -/
def CircuitBreaker.applyAll (cb : CircuitBreaker) (es : List CBEvent) : CircuitBreaker :=
  es.foldl CircuitBreaker.apply cb

/-- A calendar date, as the orchestrator's day iterator produces them. -/
structure Date where
  year : ℕ
  month : ℕ
  day : ℕ
deriving DecidableEq

/-- A well-formed calendar date: four-digit year, month 1–12, day 1–31. -/
def Date.Valid (d : Date) : Prop :=
  d.year ≤ 9999 ∧ 1 ≤ d.month ∧ d.month ≤ 12 ∧ 1 ≤ d.day ∧ d.day ≤ 31

instance (d : Date) : Decidable d.Valid := by
  unfold Date.Valid; infer_instance

/-- Chronological order on dates: lexicographic on (year, month, day). -/
def Date.le (d₁ d₂ : Date) : Prop :=
  d₁.year < d₂.year ∨ (d₁.year = d₂.year ∧
    (d₁.month < d₂.month ∨ (d₁.month = d₂.month ∧ d₁.day ≤ d₂.day)))

instance (d₁ d₂ : Date) : Decidable (Date.le d₁ d₂) := by
  unfold Date.le; infer_instance

/-- Zero-padded fixed-width decimal rendering of a natural number, most
significant digit first (the behaviour of the zero-padded `strftime`
directives `%Y`, `%m`, `%d`). -/
def padNum : ℕ → ℕ → List Char
  | 0, _ => []
  | w + 1, n => Nat.digitChar (n / 10 ^ w) :: padNum w (n % 10 ^ w)

/-- Interpret a `strftime`-style template over a date: `%Y` renders the
four-digit year, `%m` the two-digit month, `%d` the two-digit day, and
every other character stands for itself. -/
def formatChars : List Char → Date → List Char
  | [], _ => []
  | '%' :: 'Y' :: rest, d => padNum 4 d.year ++ formatChars rest d
  | '%' :: 'm' :: rest, d => padNum 2 d.month ++ formatChars rest d
  | '%' :: 'd' :: rest, d => padNum 2 d.day ++ formatChars rest d
  | c :: rest, d => c :: formatChars rest d

/-- Modelled from the spec: `scraper.constants.BatchSpan` is not in the
tree (only the notebook lookup trace is).  The closed set of
time-windowing policies of spec section 4.2: daily and monthly. -/
inductive BatchSpan where
  | DAY
  | MONTH
deriving DecidableEq

/-- The single-character selector code of each span (notebook: `cs.value`). -/
def BatchSpan.value : BatchSpan → String
  | BatchSpan.DAY => "d"
  | BatchSpan.MONTH => "m"

/-- The symbolic label of each span (notebook: `cs.name`). -/
def BatchSpan.name : BatchSpan → String
  | BatchSpan.DAY => "DAY"
  | BatchSpan.MONTH => "MONTH"

/-- The date-format template of each span (notebook: `cs.fmt`). -/
def BatchSpan.fmt : BatchSpan → String
  | BatchSpan.DAY => "%Y-%m-%d"
  | BatchSpan.MONTH => "%Y-%m"

/-- Modelled from the spec: `BatchSpan.from_value` — pure lookup by code,
a configuration error for codes outside the declared set. -/
def BatchSpan.from_value (v : String) : Except String BatchSpan :=
  if v = "d" then Except.ok BatchSpan.DAY
  else if v = "m" then Except.ok BatchSpan.MONTH
  else Except.error ("Invalid batch span code: " ++ v)

/-- The bucket key of a timestamp: the span's template applied to it
(`YYYY-MM-DD` for Day, `YYYY-MM` for Month). -/
def BatchSpan.bucketKeyFor (s : BatchSpan) (d : Date) : String :=
  ⟨formatChars s.fmt.toList d⟩

/-- The persisted artifact name for a bucket, per the README:
`r_<subreddit>_<bucket key>.json`. -/
def BatchSpan.outputName (s : BatchSpan) (subreddit : String) (d : Date) : String :=
  "r_" ++ subreddit ++ "_" ++ s.bucketKeyFor d ++ ".json"

/-- One fetched item awaiting flush: its day and the submission and
comment counts it contributed. -/
structure Item where
  day : Date
  submissions : ℕ
  comments : ℕ
deriving DecidableEq

/-- The orchestrator-owned accumulator of spec section 3: the bucket key
of the period being accumulated, the running totals, and the fetched
records awaiting flush. -/
structure Batch where
  bucketKey : String
  submissionCount : ℕ
  commentCount : ℕ
  records : List Item
deriving DecidableEq

/-- A fresh accumulator for a bucket key. -/
def Batch.empty (key : String) : Batch := ⟨key, 0, 0, []⟩

/-- Fold one fetched day's result into the accumulator. -/
def Batch.fold (b : Batch) (d : Date) (subs comms : ℕ) : Batch :=
  ⟨b.bucketKey, b.submissionCount + subs, b.commentCount + comms,
    b.records ++ [⟨d, subs, comms⟩]⟩

/-- Orchestrator state: the current accumulator (none before the first
day), the batches flushed so far in order, and the circuit breaker. -/
structure OrchState where
  acc : Option Batch
  flushed : List Batch
  cb : CircuitBreaker

/-- Flush an accumulator: persisted only when non-empty. -/
def flushBatch (flushed : List Batch) (b : Batch) : List Batch :=
  if b.records.isEmpty then flushed else flushed ++ [b]

/-- Modelled from the spec: step 1–2 of the `ScrapeOrchestrator` loop of
section 4.4.  Compute the day's bucket key; on the first day or on a key
change flush the previous accumulator (if non-empty) and start a fresh one
for the new key. -/
def rollBucket (span : BatchSpan) (st : OrchState) (day : Date) : OrchState :=
  let key := span.bucketKeyFor day
  match st.acc with
  | none => ⟨some (Batch.empty key), st.flushed, st.cb⟩
  | some a =>
      if a.bucketKey = key then st
      else ⟨some (Batch.empty key), flushBatch st.flushed a, st.cb⟩

/-- Modelled from the spec: step 3–4 of the `ScrapeOrchestrator` loop of
section 4.4.  Skip the fetch when the breaker forbids calls; otherwise
fetch, recording success or failure on the breaker and folding successful
results into the accumulator.  `fetch` returns `none` on a transient
upstream failure; `clock` supplies "now" (seconds) for the breaker. -/
def attemptFetch (clock : Date → ℚ) (fetch : Date → Option (ℕ × ℕ))
    (st : OrchState) (day : Date) : OrchState :=
  if st.cb.isCallPermitted then
    match fetch day with
    | some (subs, comms) =>
        ⟨st.acc.map (fun a => a.fold day subs comms), st.flushed, st.cb.success⟩
    | none => ⟨st.acc, st.flushed, st.cb.failure (clock day)⟩
  else st

/-- Modelled from the spec: one full iteration of the orchestrator loop. -/
def processDay (span : BatchSpan) (clock : Date → ℚ) (fetch : Date → Option (ℕ × ℕ))
    (st : OrchState) (day : Date) : OrchState :=
  attemptFetch clock fetch (rollBucket span st day) day

/-- The orchestrator's bucket-attribution invariant: every record of every
flushed batch carries that batch's bucket key, the flushed bucket keys are
strictly increasing, and while an accumulator is live its records match
its key, its key is strictly above every flushed key, and it is at or
below the key of every day still to come. -/
def OrchInv (span : BatchSpan) (st : OrchState) (days : List Date) : Prop :=
  (∀ b ∈ st.flushed, ∀ r ∈ b.records, span.bucketKeyFor r.day = b.bucketKey) ∧
  List.Pairwise (· < ·) (st.flushed.map Batch.bucketKey) ∧
  match st.acc with
  | none => st.flushed = []
  | some a =>
      (∀ r ∈ a.records, span.bucketKeyFor r.day = a.bucketKey) ∧
      (∀ b ∈ st.flushed, b.bucketKey < a.bucketKey) ∧
      (∀ d ∈ days, a.bucketKey ≤ span.bucketKeyFor d)

/-- Modelled from the spec: run the orchestrator over a day range in
order, then flush any non-empty remaining accumulator; the result is the
ordered list of persisted batches. -/
def runOrch (span : BatchSpan) (clock : Date → ℚ) (fetch : Date → Option (ℕ × ℕ))
    (days : List Date) (cb₀ : CircuitBreaker) : List Batch :=
  let st := days.foldl (processDay span clock fetch) ⟨none, [], cb₀⟩
  match st.acc with
  | none => st.flushed
  | some a => flushBatch st.flushed a

/-! Helper lemmas about the circuit breaker. -/

lemma failure_succ_zero (cb : CircuitBreaker) (now : ℚ) :
    (cb.failure now).consecutiveSuccesses = 0 := by
  rcases cb with ⟨s, f, su, o, ft, st, cd⟩
  cases s <;> simp only [CircuitBreaker.failure] <;> split <;> rfl

lemma success_fail_zero (cb : CircuitBreaker) :
    cb.success.consecutiveFailures = 0 := by
  rcases cb with ⟨s, f, su, o, ft, st, cd⟩
  simp only [CircuitBreaker.success]
  split <;> rfl

lemma apply_counter_reset (cb : CircuitBreaker) (e : CBEvent) :
    (cb.apply e).consecutiveFailures = 0 ∨ (cb.apply e).consecutiveSuccesses = 0 := by
  cases e with
  | fail now => exact Or.inr (failure_succ_zero cb now)
  | succeed => exact Or.inl (success_fail_zero cb)

lemma applyAll_counter_reset (es : List CBEvent) (cb : CircuitBreaker)
    (h : cb.consecutiveFailures = 0 ∨ cb.consecutiveSuccesses = 0) :
    ((cb.applyAll es).consecutiveFailures = 0 ∨ (cb.applyAll es).consecutiveSuccesses = 0) := by
  induction es generalizing cb with
  | nil => exact h
  | cons e es ih => exact ih (cb.apply e) (apply_counter_reset cb e)

/-- Claim C4: after any finite sequence of failure/success events on a
fresh breaker, the state is one of the three declared states, the two
consecutive counters are never both non-zero, and indeed every recorded
failure zeroes `consecutiveSuccesses` while every recorded success zeroes
`consecutiveFailures`. -/
theorem breaker_state_and_counter_invariant (cd : ℚ) (es : List CBEvent) :
    (((CircuitBreaker.new cd).applyAll es).state = CBState.Closed ∨
      ((CircuitBreaker.new cd).applyAll es).state = CBState.Open ∨
      ((CircuitBreaker.new cd).applyAll es).state = CBState.HalfOpen) ∧
    (((CircuitBreaker.new cd).applyAll es).consecutiveFailures = 0 ∨
      ((CircuitBreaker.new cd).applyAll es).consecutiveSuccesses = 0) ∧
    (∀ cb : CircuitBreaker, ∀ now : ℚ, (cb.failure now).consecutiveSuccesses = 0) ∧
    (∀ cb : CircuitBreaker, cb.success.consecutiveFailures = 0) := by
  refine ⟨?_, ?_, failure_succ_zero, success_fail_zero⟩
  · rcases ((CircuitBreaker.new cd).applyAll es).state with _ | _ | _
    · exact Or.inl rfl
    · exact Or.inr (Or.inl rfl)
    · exact Or.inr (Or.inr rfl)
  · exact applyAll_counter_reset es _ (Or.inl rfl)

/-- Claim C6: `from_value` round-trips on every declared span: looking a
span up by its own code returns a span with the same code (in fact the
same span), and the set is closed. -/
theorem from_value_round_trip :
    ∀ s : BatchSpan, BatchSpan.from_value s.value = Except.ok s ∧
      (BatchSpan.from_value s.value).map BatchSpan.value = Except.ok s.value := by
  intro s
  cases s <;> exact ⟨rfl, rfl⟩

/-- Claim C10: looking up code "d" returns the DAY member, whose code is
"d", whose label is "DAY" and whose template is exactly `%Y-%m-%d`; that
template is the one driving daily bucket keys and output filenames. -/
theorem from_value_day_member :
    BatchSpan.from_value "d" = Except.ok BatchSpan.DAY ∧
    BatchSpan.DAY.value = "d" ∧
    BatchSpan.DAY.name = "DAY" ∧
    BatchSpan.DAY.fmt = "%Y-%m-%d" ∧
    (∀ d : Date, BatchSpan.DAY.bucketKeyFor d = ⟨formatChars "%Y-%m-%d".toList d⟩) ∧
    BatchSpan.DAY.bucketKeyFor ⟨2025, 6, 22⟩ = "2025-06-22" ∧
    BatchSpan.DAY.outputName "python" ⟨2025, 6, 22⟩ = "r_python_2025-06-22.json" := by
  exact ⟨rfl, rfl, rfl, rfl, fun d => rfl, by decide, by decide⟩

/-- Claim C8: the elapsed-time conversion has sub-minute precision — there
is a duration that is not a whole number of minutes whose conversion to
minutes has a non-zero fractional part (it is not an integer). -/
theorem get_minutes_subminute_precision :
    ∃ td : ℚ, (∀ k : ℤ, td ≠ 60 * k) ∧ (∀ k : ℤ, DateTime.get_minutes td ≠ (k : ℚ)) := by
  refine ⟨90, ?_, ?_⟩
  · intro k hk
    have h2 : (2 * k : ℤ) = 3 := by
      have : (2 * (k : ℚ)) = 3 := by linarith
      exact_mod_cast this
    omega
  · intro k hk
    have hk' : (3 / 2 : ℚ) = (k : ℚ) := by
      have : DateTime.get_minutes 90 = 3 / 2 := by
        norm_num [DateTime.get_minutes]
      linarith [hk ▸ this]
    have h2 : (2 * k : ℤ) = 3 := by
      have : (2 * (k : ℚ)) = 3 := by linarith
      exact_mod_cast this
    omega

/-- Claim C9 (as frozen) is false of the spec's elapsed-time contract: the
conversion of a 90-second duration to minutes is not an integer. -/
theorem get_minutes_not_always_integral :
    ¬ ∃ k : ℤ, DateTime.get_minutes 90 = (k : ℚ) := by
  rintro ⟨k, hk⟩
  have hk' : (3 / 2 : ℚ) = (k : ℚ) := by
    have : DateTime.get_minutes 90 = 3 / 2 := by
      norm_num [DateTime.get_minutes]
    linarith [hk ▸ this]
  have h2 : (2 * k : ℤ) = 3 := by
    have : (2 * (k : ℚ)) = 3 := by linarith
    exact_mod_cast this
  omega

/-- Claim C9, amended: the conversion to minutes is an integer exactly
when the duration is a whole number of minutes; on a whole 442-minute
duration it returns exactly 442. -/
theorem get_minutes_integral_iff_whole_minutes :
    (∀ td : ℚ, (∃ k : ℤ, DateTime.get_minutes td = (k : ℚ)) ↔ (∃ k : ℤ, td = 60 * k)) ∧
    DateTime.get_minutes (442 * 60) = 442 := by
  constructor
  · intro td
    constructor
    · rintro ⟨k, hk⟩
      refine ⟨k, ?_⟩
      have h60 : (60 : ℚ) ≠ 0 := by norm_num
      have := (div_eq_iff h60).mp hk
      linarith
    · rintro ⟨k, hk⟩
      refine ⟨k, ?_⟩
      rw [hk]
      unfold DateTime.get_minutes
      field_simp
  · norm_num [DateTime.get_minutes]

lemma failStreak_new_closed (cd now : ℚ) (n : ℕ) (hn : n ≤ 5) :
    (CircuitBreaker.new cd).failStreak now n =
      ⟨CBState.Closed, n, 0, 0, 5, 5, cd⟩ := by
  induction n with
  | zero => rfl
  | succ m ih =>
    rw [CircuitBreaker.failStreak, ih (by omega)]
    simp only [CircuitBreaker.failure]
    rw [if_neg (by omega)]

lemma failStreak_new_open (cd now : ℚ) (hcd : 0 < cd) (n : ℕ) (hn : 6 ≤ n) :
    (CircuitBreaker.new cd).failStreak now n =
      ⟨CBState.Open, n, 0, now, 5, 5, cd⟩ := by
  obtain ⟨m, rfl⟩ : ∃ m, n = 6 + m := ⟨n - 6, by omega⟩
  induction m with
  | zero =>
    show ((CircuitBreaker.new cd).failStreak now 5).failure now = _
    rw [failStreak_new_closed cd now 5 (by omega)]
    simp only [CircuitBreaker.failure]
    rw [if_pos (by omega)]
  | succ k ih =>
    show ((CircuitBreaker.new cd).failStreak now (6 + k)).failure now = _
    rw [ih (by omega)]
    simp only [CircuitBreaker.failure]
    have h0 : DateTime.get_minutes (now - now) = 0 := by
      simp [DateTime.get_minutes]
    rw [h0, if_neg (not_le.mpr hcd)]
    rfl



lemma failure_closed_step (cb : CircuitBreaker) (now : ℚ) (h : cb.state = CBState.Closed) :
    ((cb.failure now).state = CBState.Open ↔ cb.failureThreshold < cb.consecutiveFailures + 1) := by
  rcases cb with ⟨s, f, su, o, ft, st, cd⟩
  dsimp only at h
  subst h
  simp only [CircuitBreaker.failure]
  by_cases hf : ft < f + 1
  · rw [if_pos hf]
    simpa using hf
  · rw [if_neg hf]
    simp [hf]

/-- Claim C1: from a fresh breaker with the default threshold of 5, a
streak of consecutive failures leaves the circuit Closed through the 5th
and Open exactly from the 6th on; in general a failure while Closed opens
the circuit iff the failure count strictly exceeds the threshold, and any
success resets the failure counter to 0. -/
theorem circuit_opens_iff_failures_exceed_threshold (cd now : ℚ) (hcd : 0 < cd) (n : ℕ) :
    (((CircuitBreaker.new cd).failStreak now n).state = CBState.Closed ↔ n ≤ 5) ∧
    (((CircuitBreaker.new cd).failStreak now n).state = CBState.Open ↔ 6 ≤ n) ∧
    (∀ cb : CircuitBreaker, cb.state = CBState.Closed →
      ((cb.failure now).state = CBState.Open ↔ cb.failureThreshold < cb.consecutiveFailures + 1)) ∧
    (∀ cb : CircuitBreaker, cb.success.consecutiveFailures = 0) := by
  refine ⟨?_, ?_, fun cb h => failure_closed_step cb now h, success_fail_zero⟩
  · by_cases hn : n ≤ 5
    · rw [failStreak_new_closed cd now n hn]
      simpa using hn
    · rw [failStreak_new_open cd now hcd n (by omega)]
      simp
      omega
  · by_cases hn : n ≤ 5
    · rw [failStreak_new_closed cd now n hn]
      simp
      omega
    · rw [failStreak_new_open cd now hcd n (by omega)]
      simpa using (by omega : 6 ≤ n)

/-- Witness for C1 at the default configuration. -/
theorem circuit_opens_witness :
    (0 : ℚ) < 1 ∧ ((CircuitBreaker.new 1).failStreak 0 5).state = CBState.Closed ∧
      ((CircuitBreaker.new 1).failStreak 0 6).state = CBState.Open :=
  ⟨by norm_num,
   (circuit_opens_iff_failures_exceed_threshold 1 0 (by norm_num) 5).1.mpr (by norm_num),
   (circuit_opens_iff_failures_exceed_threshold 1 0 (by norm_num) 6).2.1.mpr (by norm_num)⟩



/-- Claim C2: while Open, a failure recorded before the cooldown has
elapsed since `openedAt` leaves the circuit Open (and keeps `openedAt`),
and a failure recorded once the cooldown has elapsed moves it to
Half-Open. -/
theorem open_breaker_respects_cooldown (cb : CircuitBreaker) (now : ℚ)
    (h : cb.state = CBState.Open) :
    (DateTime.get_minutes (now - cb.openedAt) < cb.cooldownDuration →
      (cb.failure now).state = CBState.Open ∧ (cb.failure now).openedAt = cb.openedAt) ∧
    (cb.cooldownDuration ≤ DateTime.get_minutes (now - cb.openedAt) →
      (cb.failure now).state = CBState.HalfOpen) := by
  rcases cb with ⟨s, f, su, o, ft, st, cd⟩
  dsimp only at h
  subst h
  dsimp only
  constructor
  · intro hlt
    simp only [CircuitBreaker.failure]
    rw [if_neg (not_le.mpr hlt)]
    exact ⟨rfl, rfl⟩
  · intro hge
    simp only [CircuitBreaker.failure]
    rw [if_pos hge]

/-- Witness for C2 on a concrete Open breaker with a 10-minute cooldown. -/
theorem open_breaker_respects_cooldown_witness :
    (⟨CBState.Open, 6, 0, 0, 5, 5, 10⟩ : CircuitBreaker).state = CBState.Open ∧
    ((⟨CBState.Open, 6, 0, 0, 5, 5, 10⟩ : CircuitBreaker).failure 0).state = CBState.Open ∧
    ((⟨CBState.Open, 6, 0, 0, 5, 5, 10⟩ : CircuitBreaker).failure 600).state = CBState.HalfOpen :=
  ⟨rfl,
   ((open_breaker_respects_cooldown _ 0 rfl).1 (by norm_num [DateTime.get_minutes])).1,
   (open_breaker_respects_cooldown _ 600 rfl).2 (by norm_num [DateTime.get_minutes])⟩

lemma succStreak_halfopen_le5 (f ft : ℕ) (o cd : ℚ) (n : ℕ) (h1 : 1 ≤ n) (h5 : n ≤ 5) :
    (⟨CBState.HalfOpen, f, 0, o, ft, 5, cd⟩ : CircuitBreaker).succStreak n =
      ⟨CBState.HalfOpen, 0, n, o, ft, 5, cd⟩ := by
  induction n with
  | zero => omega
  | succ m ih =>
    rcases Nat.eq_zero_or_pos m with hm | hm
    · subst hm
      show (⟨CBState.HalfOpen, f, 0, o, ft, 5, cd⟩ : CircuitBreaker).success = _
      simp only [CircuitBreaker.success]
      rw [if_neg (by rintro ⟨-, hc⟩; omega)]
    · rw [CircuitBreaker.succStreak, ih hm (by omega)]
      simp only [CircuitBreaker.success]
      rw [if_neg (by rintro ⟨-, hc⟩; omega)]

lemma succStreak_halfopen_6 (f ft : ℕ) (o cd : ℚ) :
    (⟨CBState.HalfOpen, f, 0, o, ft, 5, cd⟩ : CircuitBreaker).succStreak 6 =
      ⟨CBState.Closed, 0, 0, o, ft, 5, cd⟩ := by
  show ((⟨CBState.HalfOpen, f, 0, o, ft, 5, cd⟩ : CircuitBreaker).succStreak 5).success = _
  rw [succStreak_halfopen_le5 f ft o cd 5 (by omega) (by omega)]
  simp only [CircuitBreaker.success]
  rw [if_pos (by simp)]

lemma success_closed_stays (cb : CircuitBreaker) (h : cb.state = CBState.Closed) :
    cb.success.state = CBState.Closed := by
  rcases cb with ⟨s, f, su, o, ft, st, cd⟩
  dsimp only at h
  subst h
  simp only [CircuitBreaker.success]
  rw [if_neg (by rintro ⟨hc, -⟩; exact CBState.noConfusion hc)]

lemma succStreak_halfopen_ge6 (f ft : ℕ) (o cd : ℚ) (n : ℕ) (hn : 6 ≤ n) :
    ((⟨CBState.HalfOpen, f, 0, o, ft, 5, cd⟩ : CircuitBreaker).succStreak n).state =
      CBState.Closed := by
  obtain ⟨m, rfl⟩ : ∃ m, n = 6 + m := ⟨n - 6, by omega⟩
  induction m with
  | zero => rw [succStreak_halfopen_6]
  | succ k ih =>
    show (((⟨CBState.HalfOpen, f, 0, o, ft, 5, cd⟩ : CircuitBreaker).succStreak (6 + k)).success).state = _
    exact success_closed_stays _ (ih (by omega))

/-- Claim C3: from Half-Open with a zero success counter and the default
threshold of 5, a streak of consecutive successes closes the circuit
exactly from the 6th on, and on the closing transition both counters are
reset to 0. -/
theorem half_open_closes_on_sixth_success (cb : CircuitBreaker)
    (h : cb.state = CBState.HalfOpen) (h0 : cb.consecutiveSuccesses = 0)
    (ht : cb.successThreshold = 5) (n : ℕ) :
    ((cb.succStreak n).state = CBState.Closed ↔ 6 ≤ n) ∧
    (cb.succStreak 6).consecutiveFailures = 0 ∧
    (cb.succStreak 6).consecutiveSuccesses = 0 := by
  rcases cb with ⟨s, f, su, o, ft, st, cd⟩
  dsimp only at h h0 ht
  subst h
  subst h0
  subst ht
  refine ⟨⟨?_, fun hn => succStreak_halfopen_ge6 f ft o cd n hn⟩, ?_, ?_⟩
  · intro hcl
    by_contra hn
    rcases Nat.eq_zero_or_pos n with h0' | h1'
    · subst h0'
      exact CBState.noConfusion hcl
    · rw [succStreak_halfopen_le5 f ft o cd n h1' (by omega)] at hcl
      exact CBState.noConfusion hcl
  · rw [succStreak_halfopen_6]
  · rw [succStreak_halfopen_6]

/-- Witness for C3 on a concrete Half-Open breaker. -/
theorem half_open_closes_on_sixth_success_witness :
    (⟨CBState.HalfOpen, 7, 0, 0, 5, 5, 10⟩ : CircuitBreaker).state = CBState.HalfOpen ∧
    ((⟨CBState.HalfOpen, 7, 0, 0, 5, 5, 10⟩ : CircuitBreaker).succStreak 6).state = CBState.Closed ∧
    ((⟨CBState.HalfOpen, 7, 0, 0, 5, 5, 10⟩ : CircuitBreaker).succStreak 6).consecutiveFailures = 0 ∧
    ((⟨CBState.HalfOpen, 7, 0, 0, 5, 5, 10⟩ : CircuitBreaker).succStreak 6).consecutiveSuccesses = 0 :=
  ⟨rfl,
   (half_open_closes_on_sixth_success _ rfl rfl rfl 6).1.mpr (by norm_num),
   (half_open_closes_on_sixth_success _ rfl rfl rfl 6).2.1,
   (half_open_closes_on_sixth_success _ rfl rfl rfl 6).2.2⟩



lemma digitChar_lt_digitChar (a b : ℕ) (hab : a < b) (hb : b < 10) :
    Nat.digitChar a < Nat.digitChar b := by
  interval_cases b <;> interval_cases a <;> decide

lemma padNum_length (w : ℕ) : ∀ n, (padNum w n).length = w := by
  induction w with
  | zero => intro n; rfl
  | succ k ih => intro n; simp [padNum, ih]

lemma padNum_lex (w : ℕ) : ∀ a b : ℕ, a < b → b < 10 ^ w →
    List.Lex (· < ·) (padNum w a) (padNum w b) := by
  induction w with
  | zero =>
    intro a b hab hb
    simp at hb
    omega
  | succ k ih =>
    intro a b hab hb
    by_cases hq : a / 10 ^ k = b / 10 ^ k
    · have h1 := Nat.div_add_mod a (10 ^ k)
      have h2 := Nat.div_add_mod b (10 ^ k)
      rw [hq] at h1
      have hmod : a % 10 ^ k < b % 10 ^ k := by
        generalize 10 ^ k * (b / 10 ^ k) = t at h1 h2
        omega
      have hbmod : b % 10 ^ k < 10 ^ k := Nat.mod_lt _ (pow_pos (by norm_num) k)
      show List.Lex (· < ·)
        (Nat.digitChar (a / 10 ^ k) :: padNum k (a % 10 ^ k))
        (Nat.digitChar (b / 10 ^ k) :: padNum k (b % 10 ^ k))
      rw [hq]
      exact List.Lex.cons (ih _ _ hmod hbmod)
    · have hqle : a / 10 ^ k ≤ b / 10 ^ k := Nat.div_le_div_right (le_of_lt hab)
      have hqlt : a / 10 ^ k < b / 10 ^ k := lt_of_le_of_ne hqle hq
      have hbq : b / 10 ^ k < 10 := by
        rw [Nat.div_lt_iff_lt_mul (pow_pos (by norm_num) k)]
        rw [pow_succ] at hb
        linarith
      exact List.Lex.rel (digitChar_lt_digitChar _ _ hqlt hbq)

lemma lex_append_of_eqlen {l₁ l₂ r₁ r₂ : List Char}
    (h : List.Lex (· < ·) l₁ l₂) (hlen : l₁.length = l₂.length) :
    List.Lex (· < ·) (l₁ ++ r₁) (l₂ ++ r₂) := by
  induction h with
  | nil => simp at hlen
  | cons h ih => exact List.Lex.cons (ih (by simpa using hlen))
  | rel h => exact List.Lex.rel h

lemma keyChars_day (d : Date) :
    formatChars "%Y-%m-%d".toList d =
      padNum 4 d.year ++ '-' :: (padNum 2 d.month ++ '-' :: (padNum 2 d.day ++ [])) := rfl

lemma keyChars_month (d : Date) :
    formatChars "%Y-%m".toList d =
      padNum 4 d.year ++ '-' :: (padNum 2 d.month ++ []) := rfl



lemma bucketKeyFor_mono (s : BatchSpan) (d₁ d₂ : Date)
    (h₁ : d₁.Valid) (h₂ : d₂.Valid) (hle : Date.le d₁ d₂) :
    s.bucketKeyFor d₁ ≤ s.bucketKeyFor d₂ := by
  rw [String.le_iff_toList_le]
  rcases d₁ with ⟨y₁, m₁, a₁⟩
  rcases d₂ with ⟨y₂, m₂, a₂⟩
  simp only [Date.Valid] at h₁ h₂
  obtain ⟨hy₁, hm₁, hm₁u, ha₁, ha₁u⟩ := h₁
  obtain ⟨hy₂, hm₂, hm₂u, ha₂, ha₂u⟩ := h₂
  simp only [Date.le] at hle
  have hlen4 : ∀ p q : ℕ, (padNum 4 p).length = (padNum 4 q).length := by
    intro p q; rw [padNum_length, padNum_length]
  have hlen2 : ∀ p q : ℕ, (padNum 2 p).length = (padNum 2 q).length := by
    intro p q; rw [padNum_length, padNum_length]
  have hy4 : y₂ < 10 ^ 4 := by norm_num; omega
  have hm100 : m₂ < 10 ^ 2 := by norm_num; omega
  have ha100 : a₂ < 10 ^ 2 := by norm_num; omega
  cases s
  case DAY =>
    show (padNum 4 y₁ ++ '-' :: (padNum 2 m₁ ++ '-' :: (padNum 2 a₁ ++ []))) ≤
      (padNum 4 y₂ ++ '-' :: (padNum 2 m₂ ++ '-' :: (padNum 2 a₂ ++ [])))
    rcases hle with hy | ⟨rfl, hm | ⟨rfl, ha⟩⟩
    · exact le_of_lt (lex_append_of_eqlen (padNum_lex 4 y₁ y₂ hy hy4) (hlen4 y₁ y₂))
    · exact le_of_lt (List.Lex.append_left _
        (List.Lex.cons (lex_append_of_eqlen (padNum_lex 2 m₁ m₂ hm hm100) (hlen2 m₁ m₂))) _)
    · rcases lt_or_eq_of_le ha with ha' | rfl
      · exact le_of_lt (List.Lex.append_left _
          (List.Lex.cons (List.Lex.append_left _
            (List.Lex.cons (lex_append_of_eqlen (padNum_lex 2 a₁ a₂ ha' ha100)
              (hlen2 a₁ a₂))) _)) _)
      · exact le_rfl
  case MONTH =>
    show (padNum 4 y₁ ++ '-' :: (padNum 2 m₁ ++ [])) ≤
      (padNum 4 y₂ ++ '-' :: (padNum 2 m₂ ++ []))
    rcases hle with hy | ⟨rfl, hm | ⟨rfl, -⟩⟩
    · exact le_of_lt (lex_append_of_eqlen (padNum_lex 4 y₁ y₂ hy hy4) (hlen4 y₁ y₂))
    · exact le_of_lt (List.Lex.append_left _
        (List.Lex.cons (lex_append_of_eqlen (padNum_lex 2 m₁ m₂ hm hm100) (hlen2 m₁ m₂))) _)
    · exact le_rfl

/-- Claim C7: for each span, `bucketKeyFor` is monotonically non-decreasing
over chronologically increasing valid dates under ordinary string
comparison, so key inequality detects boundary crossings in a forward day
iteration. -/
theorem bucket_key_monotone (s : BatchSpan) (d₁ d₂ : Date)
    (h₁ : d₁.Valid) (h₂ : d₂.Valid) (hle : Date.le d₁ d₂) :
    s.bucketKeyFor d₁ ≤ s.bucketKeyFor d₂ :=
  bucketKeyFor_mono s d₁ d₂ h₁ h₂ hle

/-- Witness for C7 across a concrete month boundary. -/
theorem bucket_key_monotone_witness :
    (⟨2025, 1, 30⟩ : Date).Valid ∧ (⟨2025, 2, 2⟩ : Date).Valid ∧
    Date.le ⟨2025, 1, 30⟩ ⟨2025, 2, 2⟩ ∧
    BatchSpan.MONTH.bucketKeyFor ⟨2025, 1, 30⟩ ≤ BatchSpan.MONTH.bucketKeyFor ⟨2025, 2, 2⟩ ∧
    BatchSpan.DAY.bucketKeyFor ⟨2025, 1, 30⟩ ≤ BatchSpan.DAY.bucketKeyFor ⟨2025, 2, 2⟩ :=
  ⟨by decide, by decide, by decide,
   bucket_key_monotone BatchSpan.MONTH _ _ (by decide) (by decide) (by decide),
   bucket_key_monotone BatchSpan.DAY _ _ (by decide) (by decide) (by decide)⟩


lemma attemptFetch_inv (span : BatchSpan) (clock : Date → ℚ)
    (fetch : Date → Option (ℕ × ℕ)) (st : OrchState) (day : Date) (days : List Date)
    (hacc : ∃ a, st.acc = some a ∧ a.bucketKey = span.bucketKeyFor day)
    (hinv : OrchInv span st days) :
    OrchInv span (attemptFetch clock fetch st day) days := by
  obtain ⟨a, ha, hkey⟩ := hacc
  rcases st with ⟨acc, flushed, cb⟩
  dsimp only at ha
  subst ha
  obtain ⟨h1, h2, h3⟩ := hinv
  obtain ⟨h3a, h3b, h3c⟩ := h3
  unfold attemptFetch
  by_cases hp : (⟨some a, flushed, cb⟩ : OrchState).cb.isCallPermitted
  · rw [if_pos hp]
    cases hf : fetch day with
    | some pr =>
      rcases pr with ⟨subs, comms⟩
      refine ⟨h1, h2, ?_, ?_, ?_⟩
      · intro r hr
        rcases List.mem_append.mp hr with hr | hr
        · exact h3a r hr
        · simp only [List.mem_singleton] at hr
          subst hr
          exact hkey.symm
      · intro b hb
        exact h3b b hb
      · intro d hd
        exact h3c d hd
    | none =>
      exact ⟨h1, h2, h3a, h3b, h3c⟩
  · rw [if_neg hp]
    exact ⟨h1, h2, h3a, h3b, h3c⟩

lemma rollBucket_inv (span : BatchSpan) (st : OrchState) (day : Date) (days : List Date)
    (hd : day.Valid) (hv : ∀ d ∈ days, d.Valid) (hfut : ∀ d ∈ days, Date.le day d)
    (hinv : OrchInv span st (day :: days)) :
    OrchInv span (rollBucket span st day) days ∧
    ∃ a, (rollBucket span st day).acc = some a ∧ a.bucketKey = span.bucketKeyFor day := by
  rcases st with ⟨acc, flushed, cb⟩
  obtain ⟨h1, h2, h3⟩ := hinv
  cases acc with
  | none =>
    have h3' : flushed = [] := h3
    subst h3'
    unfold rollBucket
    refine ⟨⟨?_, ?_, ?_, ?_, ?_⟩, ⟨Batch.empty _, rfl, rfl⟩⟩
    · intro b hb
      simp at hb
    · simp
    · intro r hr
      simp [Batch.empty] at hr
    · intro b hb
      simp at hb
    · intro d hd'
      exact bucketKeyFor_mono span day d hd (hv d hd') (hfut d hd')
  | some a =>
    obtain ⟨h3a, h3b, h3c⟩ := h3
    unfold rollBucket
    dsimp only
    by_cases heq : a.bucketKey = span.bucketKeyFor day
    · rw [if_pos heq]
      exact ⟨⟨h1, h2, h3a, h3b, fun d hd' => h3c d (List.mem_cons_of_mem day hd')⟩,
        ⟨a, rfl, heq⟩⟩
    · rw [if_neg heq]
      have hlt : a.bucketKey < span.bucketKeyFor day :=
        lt_of_le_of_ne (h3c day (List.mem_cons_self day days)) heq
      refine ⟨⟨?_, ?_, ?_, ?_, ?_⟩, ⟨Batch.empty _, rfl, rfl⟩⟩
      · intro b hb
        unfold flushBatch at hb
        by_cases he : a.records.isEmpty
        · rw [if_pos he] at hb
          exact h1 b hb
        · rw [if_neg he] at hb
          rcases List.mem_append.mp hb with hb | hb
          · exact h1 b hb
          · simp only [List.mem_singleton] at hb
            subst hb
            exact h3a
      · unfold flushBatch
        by_cases he : a.records.isEmpty
        · rw [if_pos he]
          exact h2
        · rw [if_neg he, List.map_append]
          refine List.pairwise_append.mpr ⟨h2, by simp, ?_⟩
          intro x hx y hy
          simp only [List.map_cons, List.map_nil, List.mem_singleton] at hy
          subst hy
          obtain ⟨b, hb, rfl⟩ := List.mem_map.mp hx
          exact h3b b hb
      · intro r hr
        simp [Batch.empty] at hr
      · intro b hb
        unfold flushBatch at hb
        by_cases he : a.records.isEmpty
        · rw [if_pos he] at hb
          exact lt_trans (h3b b hb) hlt
        · rw [if_neg he] at hb
          rcases List.mem_append.mp hb with hb | hb
          · exact lt_trans (h3b b hb) hlt
          · simp only [List.mem_singleton] at hb
            subst hb
            exact hlt
      · intro d hd'
        exact bucketKeyFor_mono span day d hd (hv d hd') (hfut d hd')

lemma foldl_processDay_inv (span : BatchSpan) (clock : Date → ℚ)
    (fetch : Date → Option (ℕ × ℕ)) :
    ∀ (days : List Date) (st : OrchState),
      (∀ d ∈ days, d.Valid) → List.Pairwise Date.le days → OrchInv span st days →
      OrchInv span (days.foldl (processDay span clock fetch) st) [] := by
  intro days
  induction days with
  | nil =>
    intro st _ _ h
    exact h
  | cons day days ih =>
    intro st hv hp hinv
    rw [List.foldl_cons]
    have hd : day.Valid := hv day (List.mem_cons_self day days)
    have hv' : ∀ d ∈ days, d.Valid := fun d hd' => hv d (List.mem_cons_of_mem day hd')
    have hfut : ∀ d ∈ days, Date.le day d := (List.pairwise_cons.mp hp).1
    have hp' := (List.pairwise_cons.mp hp).2
    obtain ⟨hinv', a, ha, hkey⟩ := rollBucket_inv span st day days hd hv' hfut hinv
    exact ih (processDay span clock fetch st day) hv' hp'
      (attemptFetch_inv span clock fetch (rollBucket span st day) day days ⟨a, ha, hkey⟩ hinv')


/-- Claim C5: over any chronologically ordered day range of valid dates,
every persisted batch corresponds to exactly one bucket key (all its
records carry that key), no bucket key is persisted twice, and no day's
data is folded into a bucket other than the one its `bucketKeyFor` value
names; in particular a monthly-span run over Jan 30 – Feb 2 flushes
exactly two buckets, one per month, each containing only its own days'
counts. -/
theorem orchestrator_bucket_attribution (span : BatchSpan) (clock : Date → ℚ)
    (fetch : Date → Option (ℕ × ℕ)) (days : List Date) (cb₀ : CircuitBreaker)
    (hv : ∀ d ∈ days, d.Valid) (hs : List.Pairwise Date.le days) :
    (∀ b ∈ runOrch span clock fetch days cb₀, ∀ r ∈ b.records,
        span.bucketKeyFor r.day = b.bucketKey) ∧
    List.Pairwise (· ≠ ·) ((runOrch span clock fetch days cb₀).map Batch.bucketKey) ∧
    (runOrch BatchSpan.MONTH (fun _ => 0) (fun _ => some (1, 1))
        [⟨2025, 1, 30⟩, ⟨2025, 1, 31⟩, ⟨2025, 2, 1⟩, ⟨2025, 2, 2⟩]
        (CircuitBreaker.new 10)).map
        (fun b => (b.bucketKey, b.submissionCount, b.commentCount)) =
      [("2025-01", 2, 2), ("2025-02", 2, 2)] := by
  have hinv0 : OrchInv span (⟨none, [], cb₀⟩ : OrchState) days := ⟨by simp, by simp, rfl⟩
  have hfin := foldl_processDay_inv span clock fetch days ⟨none, [], cb₀⟩ hv hs hinv0
  refine ⟨?_, ?_, by decide⟩ <;>
    · unfold runOrch
      dsimp only
      obtain ⟨h1, h2, h3⟩ := hfin
      cases hacc : (days.foldl (processDay span clock fetch) ⟨none, [], cb₀⟩).acc with
      | none =>
        dsimp only
        first
        | exact h1
        | exact h2.imp (fun h => ne_of_lt h)
      | some a =>
        rw [hacc] at h3
        obtain ⟨h3a, h3b, h3c⟩ := h3
        dsimp only
        unfold flushBatch
        by_cases he : a.records.isEmpty
        · rw [if_pos he]
          first
          | exact h1
          | exact h2.imp (fun h => ne_of_lt h)
        · rw [if_neg he]
          first
          | · intro b hb
              rcases List.mem_append.mp hb with hb | hb
              · exact h1 b hb
              · simp only [List.mem_singleton] at hb
                subst hb
                exact h3a
          | · have hplt : List.Pairwise (· < ·)
                (((days.foldl (processDay span clock fetch) ⟨none, [], cb₀⟩).flushed
                  ++ [a]).map Batch.bucketKey) := by
                rw [List.map_append]
                refine List.pairwise_append.mpr ⟨h2, by simp, ?_⟩
                intro x hx y hy
                simp only [List.map_cons, List.map_nil, List.mem_singleton] at hy
                subst hy
                obtain ⟨b, hb, rfl⟩ := List.mem_map.mp hx
                exact h3b b hb
              exact hplt.imp (fun h => ne_of_lt h)


/-- Witness for C5: the monthly Jan 30 – Feb 2 scenario. -/
theorem orchestrator_bucket_attribution_witness :
    (∀ d ∈ ([⟨2025, 1, 30⟩, ⟨2025, 1, 31⟩, ⟨2025, 2, 1⟩, ⟨2025, 2, 2⟩] : List Date),
      d.Valid) ∧
    List.Pairwise Date.le
      ([⟨2025, 1, 30⟩, ⟨2025, 1, 31⟩, ⟨2025, 2, 1⟩, ⟨2025, 2, 2⟩] : List Date) ∧
    (∀ b ∈ runOrch BatchSpan.MONTH (fun _ => 0) (fun _ => some (1, 1))
        [⟨2025, 1, 30⟩, ⟨2025, 1, 31⟩, ⟨2025, 2, 1⟩, ⟨2025, 2, 2⟩]
        (CircuitBreaker.new 10), ∀ r ∈ b.records,
      BatchSpan.MONTH.bucketKeyFor r.day = b.bucketKey) ∧
    List.Pairwise (· ≠ ·)
      ((runOrch BatchSpan.MONTH (fun _ => 0) (fun _ => some (1, 1))
        [⟨2025, 1, 30⟩, ⟨2025, 1, 31⟩, ⟨2025, 2, 1⟩, ⟨2025, 2, 2⟩]
        (CircuitBreaker.new 10)).map Batch.bucketKey) ∧
    (runOrch BatchSpan.MONTH (fun _ => 0) (fun _ => some (1, 1))
        [⟨2025, 1, 30⟩, ⟨2025, 1, 31⟩, ⟨2025, 2, 1⟩, ⟨2025, 2, 2⟩]
        (CircuitBreaker.new 10)).map
        (fun b => (b.bucketKey, b.submissionCount, b.commentCount)) =
      [("2025-01", 2, 2), ("2025-02", 2, 2)] :=
  ⟨by decide, by decide,
   (orchestrator_bucket_attribution BatchSpan.MONTH (fun _ => 0) (fun _ => some (1, 1))
      [⟨2025, 1, 30⟩, ⟨2025, 1, 31⟩, ⟨2025, 2, 1⟩, ⟨2025, 2, 2⟩]
      (CircuitBreaker.new 10) (by decide) (by decide)).1,
   (orchestrator_bucket_attribution BatchSpan.MONTH (fun _ => 0) (fun _ => some (1, 1))
      [⟨2025, 1, 30⟩, ⟨2025, 1, 31⟩, ⟨2025, 2, 1⟩, ⟨2025, 2, 2⟩]
      (CircuitBreaker.new 10) (by decide) (by decide)).2.1,
   (orchestrator_bucket_attribution BatchSpan.MONTH (fun _ => 0) (fun _ => some (1, 1))
      [⟨2025, 1, 30⟩, ⟨2025, 1, 31⟩, ⟨2025, 2, 1⟩, ⟨2025, 2, 2⟩]
      (CircuitBreaker.new 10) (by decide) (by decide)).2.2⟩

end AskReddit



